import Mathlib

/-
Verification development for the extracellular-potential recording core
(hnn_core/extracellular.py).

Part 1 embeds the transfer-resistance engine over the reals
(floating-point arithmetic is modelled by exact real arithmetic).
Part 2 embeds the ExtracellularArray data model over exact rationals.
Part 3 embeds the recording-session callback.
-/

namespace Extracellular

/-! ### Part 1: 3-D vectors and the transfer-resistance engine -/

/-- A 3-D point or vector, coordinates in micrometers. -/
structure V3 where
  x : ℝ
  y : ℝ
  z : ℝ

/-- Componentwise difference of two vectors. -/
def vsub (u v : V3) : V3 := ⟨u.x - v.x, u.y - v.y, u.z - v.z⟩

/-- Euclidean dot product. -/
def vdot (u v : V3) : ℝ := u.x * v.x + u.y * v.y + u.z * v.z

/-- Euclidean norm, as used by numpy.linalg.norm. -/
noncomputable def vnorm (v : V3) : ℝ := Real.sqrt (vdot v v)

/-- Point-source approximation, inner term (extracellular.py lines 100-110):
the reciprocal of the electrode-to-midpoint distance, clamped below by
min_distance. -/
noncomputable def psa_phi (seg_ctr electrode_pos : V3) (min_distance : ℝ) : ℝ :=
  1 / max (vnorm (vsub electrode_pos seg_ctr)) min_distance

/-- Point-source transfer resistance for one segment
(extracellular.py lines 100-110 and 164). -/
noncomputable def transfer_resistance_psa (seg_ctr electrode_pos : V3)
    (sigma min_distance : ℝ) : ℝ :=
  1000 * psa_phi seg_ctr electrode_pos min_distance / (4 * Real.pi * sigma)

/-- Line-source approximation, the signed parallel offset H = b.dot(a)/|a|
(extracellular.py line 138). -/
noncomputable def lsa_H (a b : V3) : ℝ := vdot b a / vnorm a

/-- Line-source approximation, L = H + |a| (extracellular.py line 139). -/
noncomputable def lsa_L (a b : V3) : ℝ := lsa_H a b + vnorm a

/-- Line-source approximation, squared radial distance
R2 = b.dot(b) - H^2 clamped below by min_distance^2
(extracellular.py lines 140-144). -/
noncomputable def lsa_R2 (a b : V3) (min_distance : ℝ) : ℝ :=
  max (vdot b b - (lsa_H a b) ^ 2) (min_distance ^ 2)

/-- Numerator of the logarithm argument, selected by the sign regime of
L and H (extracellular.py lines 146-154). -/
noncomputable def lsa_num (a b : V3) (min_distance : ℝ) : ℝ :=
  if lsa_L a b < 0 ∧ lsa_H a b < 0 then
    Real.sqrt ((lsa_H a b) ^ 2 + lsa_R2 a b min_distance) - lsa_H a b
  else if 0 < lsa_L a b ∧ lsa_H a b < 0 then
    (Real.sqrt ((lsa_H a b) ^ 2 + lsa_R2 a b min_distance) - lsa_H a b) *
      (lsa_L a b + Real.sqrt ((lsa_L a b) ^ 2 + lsa_R2 a b min_distance))
  else
    Real.sqrt ((lsa_L a b) ^ 2 + lsa_R2 a b min_distance) + lsa_L a b

/-- Denominator of the logarithm argument, selected by the sign regime of
L and H (extracellular.py lines 146-154). -/
noncomputable def lsa_denom (a b : V3) (min_distance : ℝ) : ℝ :=
  if lsa_L a b < 0 ∧ lsa_H a b < 0 then
    Real.sqrt ((lsa_L a b) ^ 2 + lsa_R2 a b min_distance) - lsa_L a b
  else if 0 < lsa_L a b ∧ lsa_H a b < 0 then
    lsa_R2 a b min_distance
  else
    Real.sqrt ((lsa_H a b) ^ 2 + lsa_R2 a b min_distance) + lsa_H a b

/-- Line-source approximation, phi = log(num/denom)/|a| for one segment,
where a = end - start is the directed line vector and
b = electrode_pos - end (extracellular.py lines 134-156). -/
noncomputable def lsa_phi (seg_start seg_end electrode_pos : V3)
    (min_distance : ℝ) : ℝ :=
  Real.log
      (lsa_num (vsub seg_end seg_start) (vsub electrode_pos seg_end)
          min_distance /
        lsa_denom (vsub seg_end seg_start) (vsub electrode_pos seg_end)
          min_distance) /
    vnorm (vsub seg_end seg_start)

/-- Line-source transfer resistance for one segment
(extracellular.py lines 134-156 and 164). -/
noncomputable def transfer_resistance_lsa (seg_start seg_end electrode_pos : V3)
    (sigma min_distance : ℝ) : ℝ :=
  1000 * lsa_phi seg_start seg_end electrode_pos min_distance /
    (4 * Real.pi * sigma)

/-! Spec-worded restatement of the line-source coefficient, written
independently from the specification text for comparison with the
code-derived definition above. -/

/-- Spec wording: H = (a.dot(b))/|a|, the signed parallel offset of the
electrode past the segment end. -/
noncomputable def spec_H (a b : V3) : ℝ := vdot a b / vnorm a

/-- Spec wording: L = H + |a|. -/
noncomputable def spec_L (a b : V3) : ℝ := spec_H a b + vnorm a

/-- Spec wording: R2 = (b.dot(b)) - H^2 clamped to at least
min_distance^2. -/
noncomputable def spec_R2 (a b : V3) (min_distance : ℝ) : ℝ :=
  max (vdot b b - (spec_H a b) ^ 2) (min_distance ^ 2)

/-- Spec wording: the regime-selected numerator of the logarithm
argument. -/
noncomputable def spec_num (a b : V3) (min_distance : ℝ) : ℝ :=
  if spec_L a b < 0 ∧ spec_H a b < 0 then
    Real.sqrt ((spec_H a b) ^ 2 + spec_R2 a b min_distance) - spec_H a b
  else if 0 < spec_L a b ∧ spec_H a b < 0 then
    (Real.sqrt ((spec_H a b) ^ 2 + spec_R2 a b min_distance) - spec_H a b) *
      (spec_L a b + Real.sqrt ((spec_L a b) ^ 2 + spec_R2 a b min_distance))
  else
    Real.sqrt ((spec_L a b) ^ 2 + spec_R2 a b min_distance) + spec_L a b

/-- Spec wording: the regime-selected denominator of the logarithm
argument. -/
noncomputable def spec_denom (a b : V3) (min_distance : ℝ) : ℝ :=
  if spec_L a b < 0 ∧ spec_H a b < 0 then
    Real.sqrt ((spec_L a b) ^ 2 + spec_R2 a b min_distance) - spec_L a b
  else if 0 < spec_L a b ∧ spec_H a b < 0 then
    spec_R2 a b min_distance
  else
    Real.sqrt ((spec_H a b) ^ 2 + spec_R2 a b min_distance) + spec_H a b

/-- Spec wording: coefficient = 1000 * ln(num/den) / (4 * pi * sigma * |a|). -/
noncomputable def spec_lsa_coefficient (a b : V3) (sigma min_distance : ℝ) : ℝ :=
  1000 * Real.log (spec_num a b min_distance / spec_denom a b min_distance) /
    (4 * Real.pi * sigma * vnorm a)

/-! ### Part 2: the ExtracellularArray data model (exact rationals) -/

/-- A dynamically-typed Python value, as far as the positions argument is
concerned: either a number or a tuple/list of values. -/
inductive PyVal where
  | num (q : ℚ)
  | tup (xs : List PyVal)

/-- The approximation methods accepted by _check_option: psa or lsa.
A missing method (Python None) is modelled with Option. -/
inductive Method where
  | psa
  | lsa
deriving DecidableEq

/-- The Python exceptions the embedded operations can surface.  Payloads
record the quantities interpolated into the exception message. -/
inductive PyErr where
  | typeError
  | valueError
  | assertionError
  | runtimeError
  | indexError (n_trials : Nat)
  | shapeContacts (ntraces ncontacts trial : Nat)
  | shapeTimes (ntimes nvolt trial chan : Nat)
deriving DecidableEq

/-- The state of an ExtracellularArray after a successful constructor
run (extracellular.py lines 263-270). -/
structure EArray where
  positions : List PyVal
  sigma : ℚ
  method : Option Method
  min_distance : ℚ
  times : List ℚ
  data : List (List (List ℚ))

/-- The n_contacts attribute: the number of stored positions
(extracellular.py line 264). -/
def EArray.n_contacts (A : EArray) : Nat := A.positions.length

/-- The wrap performed by the constructor: a positions argument of
length 3 is taken to be a single coordinate and wrapped in a singleton
list (extracellular.py lines 223-224). -/
def wrapPositions (ps : List PyVal) : List PyVal :=
  if ps.length = 3 then [PyVal.tup ps] else ps

/-- A stored position passes validation when it is a tuple/list of
length three (extracellular.py lines 225-229); element types are not
inspected. -/
def validPos : PyVal → Bool
  | .tup q => q.length == 3
  | .num _ => false

/-- The inner shape check: each voltage row of a trial must have the
same length as times (extracellular.py lines 256-261). -/
def checkRows (ntimes ii : Nat) : List (List ℚ) → Nat → Option PyErr
  | [], _ => none
  | row :: rest, jj =>
    if row.length ≠ ntimes then some (.shapeTimes ntimes row.length ii jj)
    else checkRows ntimes ii rest (jj + 1)

/-- The outer shape check: each trial must hold one voltage row per
contact (extracellular.py lines 251-261). -/
def checkShapes (npos ntimes : Nat) : List (List (List ℚ)) → Nat → Option PyErr
  | [], _ => none
  | trial :: rest, ii =>
    if trial.length ≠ npos then some (.shapeContacts trial.length npos ii)
    else
      match checkRows ntimes ii trial 0 with
      | some e => some e
      | none => checkShapes npos ntimes rest (ii + 1)

/-- The ExtracellularArray constructor (extracellular.py lines 219-270).
Validation order follows the source: positions wrap and triplet check,
sigma and min_distance positivity asserts, then the voltage shape
checks. -/
def init (positions : PyVal) (sigma : ℚ) (method : Option Method)
    (min_distance : ℚ) (times : List ℚ)
    (voltages : List (List (List ℚ))) : Except PyErr EArray :=
  match positions with
  | .num _ => .error .typeError
  | .tup ps0 =>
    let ps := wrapPositions ps0
    if ps.all validPos then
      if 0 < sigma then
        if 0 < min_distance then
          match checkShapes ps.length times.length voltages 0 with
          | some e => .error e
          | none => .ok ⟨ps, sigma, method, min_distance, times, voltages⟩
        else .error .assertionError
      else .error .assertionError
    else .error .valueError

/-- The get_data accessor without times (extracellular.py lines 342-364):
the stored nested voltage structure, values unchanged. -/
def get_data (A : EArray) : List (List (List ℚ)) := A.data

/-- The get_data accessor with return_times=True
(extracellular.py lines 361-362). -/
def get_data_with_times (A : EArray) : List (List (List ℚ)) × List ℚ :=
  (A.data, A.times)

/-- A trial selection argument: int, slice or list
(extracellular.py lines 272-282). -/
inductive Sel where
  | int (i : Int)
  | slice (start stop : Option Int)
  | list (idxs : List Int)

/-- Python list indexing: index i of a list of length n is valid when
-n <= i < n; negative indices count from the end. -/
def pyIndex (n : Nat) (i : Int) : Option Nat :=
  if 0 ≤ i then (if i < (n : Int) then some i.toNat else none)
  else (if (n : Int) + i < 0 then none else some ((n : Int) + i).toNat)

/-- One bound of a Python step-one slice: clamped into [0, n], with
negative values counted from the end. -/
def sliceBound (n : Nat) (v : Option Int) (dflt : Nat) : Nat :=
  match v with
  | none => dflt
  | some s => if s < 0 then ((n : Int) + s).toNat else min s.toNat n

/-- Python step-one slicing: clamps both bounds and never raises. -/
def pySlice (dat : List (List (List ℚ))) (a b : Option Int) :
    List (List (List ℚ)) :=
  let st := sliceBound dat.length a 0
  let en := sliceBound dat.length b dat.length
  (dat.drop st).take (en - st)

/-- The list-selection comprehension of __getitem__: each index is
looked up in turn and any out-of-range index raises
(extracellular.py line 279). -/
def selectList (dat : List (List (List ℚ))) :
    List Int → Option (List (List (List ℚ)))
  | [] => some []
  | i :: rest =>
    match pyIndex dat.length i with
    | none => none
    | some k => (selectList dat rest).map (dat.getD k [] :: ·)

/-- The trial-selection part of __getitem__ (extracellular.py lines
273-285): an IndexError is re-raised with a message reporting the
number of stored trials. -/
def selectTrials (dat : List (List (List ℚ))) :
    Sel → Except PyErr (List (List (List ℚ)))
  | .int i =>
    match pyIndex dat.length i with
    | some k => .ok [dat.getD k []]
    | none => .error (.indexError dat.length)
  | .slice a b => .ok (pySlice dat a b)
  | .list idxs =>
    match selectList dat idxs with
    | some l => .ok l
    | none => .error (.indexError dat.length)

/-- The __getitem__ method (extracellular.py lines 272-288): selects
trials, then rebuilds an ExtracellularArray passing positions, sigma,
method and times but not min_distance, which therefore takes its
default value 0.5. -/
def getitem (A : EArray) (s : Sel) : Except PyErr EArray :=
  match selectTrials A.data s with
  | .error e => .error e
  | .ok nd => init (.tup A.positions) A.sigma A.method (1 / 2) A.times nd

/-! Sampling-rate inference. -/

/-- Consecutive differences, as computed by numpy.diff. -/
def diffs : List ℚ → List ℚ
  | a :: b :: rest => (b - a) :: diffs (b :: rest)
  | _ => []

/-- Insertion into a sorted list, ascending. -/
def insertSorted (x : ℚ) : List ℚ → List ℚ
  | [] => [x]
  | y :: ys => if x ≤ y then x :: y :: ys else y :: insertSorted x ys

/-- Ascending insertion sort. -/
def sortQ : List ℚ → List ℚ
  | [] => []
  | x :: xs => insertSorted x (sortQ xs)

/-- The median as computed by numpy.median: the middle element of the
sorted list, or the mean of the two middle elements when the length is
even. -/
def median (xs : List ℚ) : ℚ :=
  let s := sortQ xs
  if s.length % 2 = 1 then s.getD (s.length / 2) 0
  else (s.getD (s.length / 2 - 1) 0 + s.getD (s.length / 2) 0) / 2

/-- The largest element of a list (numpy max; 0 for the empty list,
which the source never queries). -/
def listMax : List ℚ → ℚ
  | [] => 0
  | [a] => a
  | a :: b :: rest => max a (listMax (b :: rest))

/-- The smallest element of a list (numpy min; 0 for the empty list,
which the source never queries). -/
def listMin : List ℚ → ℚ
  | [] => 0
  | [a] => a
  | a :: b :: rest => min a (listMin (b :: rest))

/-- Result of the sfreq property: None for no data, a RuntimeError for
a single sample or non-uniform sampling, or the rate in Hz. -/
inductive SfreqResult where
  | noData
  | sampleErr
  | uniformErr
  | rate (r : ℚ)
deriving DecidableEq

/-- The uniformity test and rate computation applied to the interval
list dT (extracellular.py lines 329-336): an error when the largest or
smallest inter-sample interval deviates from the median by more than
1e-3 ms, and otherwise 1000 divided by the median interval. -/
def sfreqOfDiffs (dT : List ℚ) : SfreqResult :=
  if 1 / 1000 < |listMax dT - median dT| ∨ 1 / 1000 < |listMin dT - median dT|
  then .uniformErr
  else .rate (1000 / median dT)

/-- The sfreq property (extracellular.py lines 321-336): None on no
samples, an error on one sample, and otherwise the uniformity-checked
reciprocal of the median inter-sample interval. -/
def sfreq : List ℚ → SfreqResult
  | [] => .noData
  | [_] => .sampleErr
  | a :: b :: rest => sfreqOfDiffs (diffs (a :: b :: rest))

/-! ### Part 3: the recording-session callback -/

/-- Row-by-row dot product of a matrix with a vector, as performed by
the recording callback. -/
def matVec (rows : List (List ℚ)) (v : List ℚ) : List ℚ :=
  rows.map (fun r => (List.zipWith (· * ·) r v).sum)

/-- The per-session state: the transfer-resistance matrix built once
(rows = contacts), its column count fixed at build time, and the flat
append-only voltage buffer. -/
structure Session where
  r_transfer : List (List ℚ)
  n_segments : Nat
  voltages : List ℚ

/-- Modelled from the spec: the per-step callback
(_calc_potentials_callback, extracellular.py lines 588-598) gathers the
live membrane currents and multiplies them by the built matrix through
the external simulation engine's PtrVector.gather and Matrix.mulv
primitives, which are not part of the sources here; per the spec, a
gathered current vector whose length disagrees with the matrix column
count aborts the recording with an error instead of producing
misaligned data, and a matching vector appends one voltage per contact
to the flat buffer. -/
def calcPotentialsCallback (S : Session) (currents : List ℚ) :
    Except PyErr Session :=
  if currents.length = S.n_segments then
    .ok ⟨S.r_transfer, S.n_segments, S.voltages ++ matVec S.r_transfer currents⟩
  else .error .runtimeError

/-- The _nrn_n_samples property (extracellular.py lines 556-562): the
flat buffer length divided by the contact count, raising when the
division is not exact. -/
def nrn_n_samples (n_contacts vsize : Nat) : Except PyErr Nat :=
  if vsize % n_contacts ≠ 0 then .error .runtimeError
  else .ok (vsize / n_contacts)

/-! Concrete instances used to exercise the model. -/

/-- True when the constructor or selection returned a value rather
than raising. -/
def exceptIsOk : Except PyErr EArray → Bool
  | .ok _ => true
  | .error _ => false

/-- A one-contact, one-trial, two-sample array, as produced by the
constructor from positions [(0,0,0)], sigma 0.3, method psa. -/
def Aex : EArray :=
  ⟨[PyVal.tup [PyVal.num 0, PyVal.num 0, PyVal.num 0]], 3 / 10, some .psa,
    1 / 2, [0, 1], [[[1, 2]]]⟩

/-- A one-contact, one-trial array with a non-default min_distance of
7, used to observe the min_distance reset performed by trial
selection. -/
def Amd : EArray :=
  ⟨[PyVal.tup [PyVal.num 0, PyVal.num 0, PyVal.num 0]], 3 / 10, some .psa,
    7, [0, 1], [[[5, 6]]]⟩

/-! ### Helper lemmas -/

lemma vdot_comm (u v : V3) : vdot u v = vdot v u := by
  unfold vdot; ring

lemma sqrt_gt_self_and_neg {x R : ℝ} (hR : 0 < R) :
    x < Real.sqrt (x ^ 2 + R) ∧ -x < Real.sqrt (x ^ 2 + R) := by
  have habs : |x| < Real.sqrt (x ^ 2 + R) := by
    rw [← Real.sqrt_sq_eq_abs]
    exact Real.sqrt_lt_sqrt (sq_nonneg x) (by linarith)
  constructor
  · exact lt_of_le_of_lt (le_abs_self x) habs
  · exact lt_of_le_of_lt (neg_le_abs x) habs

lemma wrapPositions_length_ne_three (ps : List PyVal) :
    (wrapPositions ps).length ≠ 3 := by
  unfold wrapPositions
  split_ifs with h
  · simp
  · exact h

lemma pyIndex_some_lt {n : Nat} {i : Int} {k : Nat}
    (h : pyIndex n i = some k) : k < n := by
  unfold pyIndex at h
  split_ifs at h with h1 h2 h3
  · simp only [Option.some.injEq] at h
    omega
  · simp only [Option.some.injEq] at h
    omega

lemma getD_mem_of_lt {α : Type} (l : List α) (k : Nat) (d : α)
    (h : k < l.length) : l.getD k d ∈ l := by
  induction l generalizing k with
  | nil => simp at h
  | cons a rest ih =>
    cases k with
    | zero => simp [List.getD]
    | succ k =>
      have : rest.getD k d ∈ rest := ih k (by simpa using h)
      simp only [List.getD_cons_succ]
      exact List.mem_cons_of_mem a this

lemma checkRows_none_iff (nt ii : Nat) (rows : List (List ℚ)) (jj : Nat) :
    checkRows nt ii rows jj = none ↔ ∀ r ∈ rows, r.length = nt := by
  induction rows generalizing jj with
  | nil => simp [checkRows]
  | cons r rest ih =>
    by_cases h : r.length = nt
    · simp [checkRows, h, ih]
    · simp [checkRows, h]

lemma checkShapes_none_iff (np nt : Nat) (vs : List (List (List ℚ)))
    (ii : Nat) :
    checkShapes np nt vs ii = none ↔
      ∀ t ∈ vs, t.length = np ∧ ∀ r ∈ t, r.length = nt := by
  induction vs generalizing ii with
  | nil => simp [checkShapes]
  | cons t rest ih =>
    by_cases h : t.length = np
    · rcases hcr : checkRows nt ii t 0 with _ | e
      · have hrows := (checkRows_none_iff nt ii t 0).mp hcr
        have hstep : checkShapes np nt (t :: rest) ii
            = checkShapes np nt rest (ii + 1) := by
          simp [checkShapes, h, hcr]
        rw [hstep, ih]
        constructor
        · intro hall t' ht'
          rcases List.mem_cons.mp ht' with rfl | hm
          · exact ⟨h, hrows⟩
          · exact hall t' hm
        · intro hall t' ht'
          exact hall t' (List.mem_cons_of_mem t ht')
      · have hrows : ¬ ∀ r ∈ t, r.length = nt := by
          intro hall
          rw [(checkRows_none_iff nt ii t 0).mpr hall] at hcr
          exact Option.noConfusion hcr
        constructor
        · intro hnone
          exfalso
          simp [checkShapes, h, hcr] at hnone
        · intro hall
          exact ((hrows fun r hr =>
            (hall t (List.mem_cons_self t rest)).2 r hr).elim)
    · simp [checkShapes, h]

lemma init_ok_elim {p : PyVal} {σ : ℚ} {m : Option Method} {md : ℚ}
    {ts : List ℚ} {vs : List (List (List ℚ))} {A : EArray}
    (h : init p σ m md ts vs = .ok A) :
    ∃ ps0, p = .tup ps0 ∧
      (wrapPositions ps0).all validPos = true ∧ 0 < σ ∧ 0 < md ∧
      checkShapes (wrapPositions ps0).length ts.length vs 0 = none ∧
      A = ⟨wrapPositions ps0, σ, m, md, ts, vs⟩ := by
  cases p with
  | num q => simp [init] at h
  | tup ps0 =>
    refine ⟨ps0, rfl, ?_⟩
    simp only [init] at h
    split_ifs at h with h1 h2 h3
    · rcases hcs : checkShapes (wrapPositions ps0).length ts.length vs 0
        with _ | e
      · rw [hcs] at h
        simp only [Except.ok.injEq] at h
        exact ⟨h1, h2, h3, by simp [hcs], h.symm⟩
      · rw [hcs] at h
        exact Except.noConfusion h

lemma selectList_eq_none {dat : List (List (List ℚ))} {l : List Int}
    (h : ∃ j ∈ l, pyIndex dat.length j = none) :
    selectList dat l = none := by
  induction l with
  | nil => simp at h
  | cons i rest ih =>
    rcases h with ⟨j, hj, hbad⟩
    rcases List.mem_cons.mp hj with rfl | hjr
    · simp [selectList, hbad]
    · rcases hpi : pyIndex dat.length i with _ | k
      · simp [selectList, hpi]
      · simp [selectList, hpi, ih ⟨j, hjr, hbad⟩]

lemma le_listMax_of_mem {x : ℚ} {l : List ℚ} (h : x ∈ l) :
    x ≤ listMax l := by
  induction l with
  | nil => simp at h
  | cons a rest ih =>
    cases rest with
    | nil => simp at h; simp [listMax, h]
    | cons b tl =>
      rcases List.mem_cons.mp h with rfl | hr
      · simp [listMax]
      · exact le_trans (ih hr) (by simp [listMax])

lemma listMin_le_of_mem {x : ℚ} {l : List ℚ} (h : x ∈ l) :
    listMin l ≤ x := by
  induction l with
  | nil => simp at h
  | cons a rest ih =>
    cases rest with
    | nil => simp at h; simp [listMin, h]
    | cons b tl =>
      rcases List.mem_cons.mp h with rfl | hr
      · simp [listMin]
      · exact le_trans (by simp [listMin]) (ih hr)

lemma listMax_mem {l : List ℚ} (h : l ≠ []) : listMax l ∈ l := by
  induction l with
  | nil => exact absurd rfl h
  | cons a rest ih =>
    cases rest with
    | nil => simp [listMax]
    | cons b tl =>
      rcases max_cases a (listMax (b :: tl)) with ⟨he, _⟩ | ⟨he, _⟩
      · simp [listMax, he]
      · have := ih (by simp)
        simp only [listMax, he]
        exact List.mem_cons_of_mem a this

lemma listMin_mem {l : List ℚ} (h : l ≠ []) : listMin l ∈ l := by
  induction l with
  | nil => exact absurd rfl h
  | cons a rest ih =>
    cases rest with
    | nil => simp [listMin]
    | cons b tl =>
      rcases min_cases a (listMin (b :: tl)) with ⟨he, _⟩ | ⟨he, _⟩
      · simp [listMin, he]
      · have := ih (by simp)
        simp only [listMin, he]
        exact List.mem_cons_of_mem a this

lemma wrapPositions_of_ne_three {ps : List PyVal} (h : ps.length ≠ 3) :
    wrapPositions ps = ps := by
  unfold wrapPositions
  rw [if_neg h]

lemma selectList_some_mem {dat : List (List (List ℚ))} {l : List Int}
    {nd : List (List (List ℚ))} (h : selectList dat l = some nd) :
    ∀ t ∈ nd, t ∈ dat := by
  induction l generalizing nd with
  | nil =>
    simp only [selectList, Option.some.injEq] at h
    subst h
    intro t ht
    simp at ht
  | cons i rest ih =>
    rcases hpi : pyIndex dat.length i with _ | k
    · simp only [selectList, hpi] at h
      exact Option.noConfusion h
    · rcases hrest : selectList dat rest with _ | l2
      · simp only [selectList, hpi, hrest, Option.map_none] at h
        exact Option.noConfusion h
      · simp only [selectList, hpi, hrest, Option.map_some',
          Option.some.injEq] at h
        subst h
        intro t ht
        rcases List.mem_cons.mp ht with rfl | hm
        · exact getD_mem_of_lt dat k [] (pyIndex_some_lt hpi)
        · exact ih hrest t hm

lemma selectTrials_ok_mem {dat : List (List (List ℚ))} {s : Sel}
    {nd : List (List (List ℚ))} (h : selectTrials dat s = .ok nd) :
    ∀ t ∈ nd, t ∈ dat := by
  cases s with
  | int i =>
    rcases hpi : pyIndex dat.length i with _ | k
    · simp only [selectTrials, hpi] at h
      exact Except.noConfusion h
    · simp only [selectTrials, hpi, Except.ok.injEq] at h
      subst h
      intro t ht
      rw [List.mem_singleton] at ht
      subst ht
      exact getD_mem_of_lt dat k [] (pyIndex_some_lt hpi)
  | slice a b =>
    simp only [selectTrials, Except.ok.injEq] at h
    subst h
    intro t ht
    unfold pySlice at ht
    exact List.mem_of_mem_drop (List.mem_of_mem_take ht)
  | list idxs =>
    rcases hsl : selectList dat idxs with _ | l2
    · simp only [selectTrials, hsl] at h
      exact Except.noConfusion h
    · simp only [selectTrials, hsl, Except.ok.injEq] at h
      subst h
      exact selectList_some_mem hsl

/-! ### Claim theorems -/

/-- C1: for every segment with directed line vector a = end - start of
nonzero length and electrode vector b measured from the segment's end,
the line-source coefficient computed by the code (phi divided by the
segment length, then scaled by 1000/(4 pi sigma)) equals the spec
formula with H = (a.dot(b))/|a|, L = H + |a|, R2 = b.dot(b) - H^2
clamped to at least min_distance^2, the three sign-selected regimes,
and coefficient = 1000 * ln(num/den) / (4 * pi * sigma * |a|). -/
theorem C1_lsa_matches_spec (s e elec : V3) (σ md : ℝ)
    (ha : vnorm (vsub e s) ≠ 0) (hσ : 0 < σ) :
    transfer_resistance_lsa s e elec σ md
      = spec_lsa_coefficient (vsub e s) (vsub elec e) σ md := by
  have hH : spec_H (vsub e s) (vsub elec e)
      = lsa_H (vsub e s) (vsub elec e) := by
    unfold spec_H lsa_H
    rw [vdot_comm]
  have hL : spec_L (vsub e s) (vsub elec e)
      = lsa_L (vsub e s) (vsub elec e) := by
    unfold spec_L lsa_L
    rw [hH]
  have hR2 : spec_R2 (vsub e s) (vsub elec e) md
      = lsa_R2 (vsub e s) (vsub elec e) md := by
    unfold spec_R2 lsa_R2
    rw [hH]
  have hnum : spec_num (vsub e s) (vsub elec e) md
      = lsa_num (vsub e s) (vsub elec e) md := by
    unfold spec_num lsa_num
    rw [hH, hL, hR2]
  have hden : spec_denom (vsub e s) (vsub elec e) md
      = lsa_denom (vsub e s) (vsub elec e) md := by
    unfold spec_denom lsa_denom
    rw [hH, hL, hR2]
  unfold transfer_resistance_lsa lsa_phi spec_lsa_coefficient
  rw [hnum, hden]
  ring

/-- Witness for C1 at a concrete segment along the x-axis with the
electrode ahead of it. -/
theorem C1_lsa_matches_spec_w :
    vnorm (vsub ⟨1, 0, 0⟩ ⟨0, 0, 0⟩) ≠ 0 ∧ 0 < (3 / 10 : ℝ) ∧
      transfer_resistance_lsa ⟨0, 0, 0⟩ ⟨1, 0, 0⟩ ⟨2, 0, 0⟩ (3 / 10) (1 / 2)
        = spec_lsa_coefficient (vsub ⟨1, 0, 0⟩ ⟨0, 0, 0⟩)
            (vsub ⟨2, 0, 0⟩ ⟨1, 0, 0⟩) (3 / 10) (1 / 2) := by
  have ha : vnorm (vsub (⟨1, 0, 0⟩ : V3) ⟨0, 0, 0⟩) ≠ 0 := by
    norm_num [vnorm, vsub, vdot, Real.sqrt_one]
  exact ⟨ha, by norm_num,
    C1_lsa_matches_spec ⟨0, 0, 0⟩ ⟨1, 0, 0⟩ ⟨2, 0, 0⟩ (3 / 10) (1 / 2) ha
      (by norm_num)⟩

/-- C2: for sigma > 0 and min_distance > 0 the point-source method
returns 1000/(4 pi sigma max(d, min_distance)) where d is the
midpoint-to-electrode distance; for d at least min_distance this is
1000/(4 pi sigma d), and below min_distance it equals the value at
d = min_distance. -/
theorem C2_psa_formula (ctr elec : V3) (σ md : ℝ)
    (hσ : 0 < σ) (hmd : 0 < md) :
    transfer_resistance_psa ctr elec σ md
        = 1000 / (4 * Real.pi * σ * max (vnorm (vsub elec ctr)) md)
      ∧ (md ≤ vnorm (vsub elec ctr) →
          transfer_resistance_psa ctr elec σ md
            = 1000 / (4 * Real.pi * σ * vnorm (vsub elec ctr)))
      ∧ (vnorm (vsub elec ctr) < md →
          transfer_resistance_psa ctr elec σ md
            = 1000 / (4 * Real.pi * σ * md)) := by
  have hmax : (0 : ℝ) < max (vnorm (vsub elec ctr)) md :=
    lt_max_of_lt_right hmd
  have hπ : Real.pi ≠ 0 := Real.pi_ne_zero
  have hmaxne : max (vnorm (vsub elec ctr)) md ≠ 0 := ne_of_gt hmax
  have hσne : σ ≠ 0 := ne_of_gt hσ
  have key : transfer_resistance_psa ctr elec σ md
      = 1000 / (4 * Real.pi * σ * max (vnorm (vsub elec ctr)) md) := by
    unfold transfer_resistance_psa psa_phi
    field_simp
    ring
  refine ⟨key, fun h => ?_, fun h => ?_⟩
  · rw [key, max_eq_left h]
  · rw [key, max_eq_right (le_of_lt h)]

/-- Witness for C2 at an electrode 20 um above a midpoint at the
origin with sigma = 0.3 and min_distance = 0.5. -/
theorem C2_psa_formula_w :
    0 < (3 / 10 : ℝ) ∧ 0 < (1 / 2 : ℝ) ∧
      transfer_resistance_psa ⟨0, 0, 0⟩ ⟨0, 0, 20⟩ (3 / 10) (1 / 2)
        = 1000 / (4 * Real.pi * (3 / 10) *
            max (vnorm (vsub ⟨0, 0, 20⟩ ⟨0, 0, 0⟩)) (1 / 2)) :=
  ⟨by norm_num, by norm_num,
    (C2_psa_formula ⟨0, 0, 0⟩ ⟨0, 0, 20⟩ (3 / 10) (1 / 2) (by norm_num)
      (by norm_num)).1⟩

/-- C9: for a segment of positive length and positive min_distance,
in each of the three line-source regimes the selected num and denom
are strictly positive, so the logarithm argument num/denom is
strictly positive and no division by zero or domain error occurs. -/
theorem C9_lsa_num_denom_pos (a b : V3) (md : ℝ)
    (ha : 0 < vnorm a) (hmd : 0 < md) :
    0 < lsa_num a b md ∧ 0 < lsa_denom a b md ∧
      0 < lsa_num a b md / lsa_denom a b md := by
  have hR2 : 0 < lsa_R2 a b md :=
    lt_of_lt_of_le (pow_pos hmd 2) (le_max_right _ _)
  have key : ∀ x : ℝ, x < Real.sqrt (x ^ 2 + lsa_R2 a b md)
      ∧ -x < Real.sqrt (x ^ 2 + lsa_R2 a b md) :=
    fun _ => sqrt_gt_self_and_neg hR2
  have hnum : 0 < lsa_num a b md := by
    unfold lsa_num
    split_ifs with h1 h2
    · have := (key (lsa_H a b)).1
      linarith
    · have hf := (key (lsa_H a b)).1
      have hg := (key (lsa_L a b)).2
      exact mul_pos (by linarith) (by linarith)
    · have := (key (lsa_L a b)).2
      linarith
  have hden : 0 < lsa_denom a b md := by
    unfold lsa_denom
    split_ifs with h1 h2
    · have := (key (lsa_L a b)).1
      linarith
    · exact hR2
    · have := (key (lsa_H a b)).2
      linarith
  exact ⟨hnum, hden, div_pos hnum hden⟩

/-- Witness for C9 at a unit segment and an on-axis electrode. -/
theorem C9_lsa_num_denom_pos_w :
    0 < vnorm ⟨1, 0, 0⟩ ∧ 0 < (1 / 2 : ℝ) ∧
      0 < lsa_num ⟨1, 0, 0⟩ ⟨1, 0, 0⟩ (1 / 2) ∧
      0 < lsa_denom ⟨1, 0, 0⟩ ⟨1, 0, 0⟩ (1 / 2) ∧
      0 < lsa_num ⟨1, 0, 0⟩ ⟨1, 0, 0⟩ (1 / 2) /
            lsa_denom ⟨1, 0, 0⟩ ⟨1, 0, 0⟩ (1 / 2) := by
  have ha : 0 < vnorm (⟨1, 0, 0⟩ : V3) := by
    norm_num [vnorm, vdot, Real.sqrt_one]
  obtain ⟨h1, h2, h3⟩ :=
    C9_lsa_num_denom_pos ⟨1, 0, 0⟩ ⟨1, 0, 0⟩ (1 / 2) ha (by norm_num)
  exact ⟨ha, by norm_num, h1, h2, h3⟩

/-- C3 (amended): for every times sequence of at least two samples,
sfreq returns 1000 divided by the median inter-sample interval when
every interval is within 1e-3 ms of the median, and raises when some
interval deviates from the median by strictly more than 1e-3 ms; for
[0,1,2,3] it returns 1000 Hz; for [0,1,2.002] each interval deviates
from the median 1.001 by exactly 1e-3 ms, so it returns
1000/1.001 Hz rather than raising; [0,1,2.003] raises. -/
theorem C3_sfreq_median_rule :
    (∀ (a b : ℚ) (rest : List ℚ),
        ((∀ d ∈ diffs (a :: b :: rest),
            |d - median (diffs (a :: b :: rest))| ≤ 1 / 1000) →
          sfreq (a :: b :: rest)
            = .rate (1000 / median (diffs (a :: b :: rest))))
        ∧ ((∃ d ∈ diffs (a :: b :: rest),
            1 / 1000 < |d - median (diffs (a :: b :: rest))|) →
          sfreq (a :: b :: rest) = .uniformErr))
    ∧ sfreq [0, 1, 2, 3] = .rate 1000
    ∧ sfreq [0, 1, 1001 / 500] = .rate (1000000 / 1001)
    ∧ sfreq [0, 1, 2003 / 1000] = .uniformErr := by
  refine ⟨?_, ?_, ?_, ?_⟩
  · intro a b rest
    have hne : diffs (a :: b :: rest) ≠ [] := by
      simp [diffs]
    constructor
    · intro hall
      have hmax := hall _ (listMax_mem hne)
      have hmin := hall _ (listMin_mem hne)
      have hcond : ¬ (1 / 1000 <
            |listMax (diffs (a :: b :: rest))
              - median (diffs (a :: b :: rest))|
          ∨ 1 / 1000 <
            |listMin (diffs (a :: b :: rest))
              - median (diffs (a :: b :: rest))|) := by
        push_neg
        exact ⟨hmax, hmin⟩
      show sfreqOfDiffs (diffs (a :: b :: rest)) = _
      unfold sfreqOfDiffs
      rw [if_neg hcond]
    · rintro ⟨d, hd, hgt⟩
      have hcond : 1 / 1000 <
            |listMax (diffs (a :: b :: rest))
              - median (diffs (a :: b :: rest))|
          ∨ 1 / 1000 <
            |listMin (diffs (a :: b :: rest))
              - median (diffs (a :: b :: rest))| := by
        rcases lt_abs.mp hgt with h | h
        · left
          have hle := le_listMax_of_mem hd
          have hstep : 1 / 1000 <
              listMax (diffs (a :: b :: rest))
                - median (diffs (a :: b :: rest)) := by
            linarith
          exact lt_of_lt_of_le hstep (le_abs_self _)
        · right
          have hge := listMin_le_of_mem hd
          have hstep : 1 / 1000 <
              -(listMin (diffs (a :: b :: rest))
                - median (diffs (a :: b :: rest))) := by
            linarith
          exact lt_of_lt_of_le hstep (neg_le_abs _)
      show sfreqOfDiffs (diffs (a :: b :: rest)) = _
      unfold sfreqOfDiffs
      rw [if_pos hcond]
  · norm_num [sfreq, sfreqOfDiffs, diffs, median, sortQ, insertSorted,
      listMax, listMin, lt_abs, abs_le]
  · norm_num [sfreq, sfreqOfDiffs, diffs, median, sortQ, insertSorted,
      listMax, listMin, lt_abs, abs_le]
  · norm_num [sfreq, sfreqOfDiffs, diffs, median, sortQ, insertSorted,
      listMax, listMin, lt_abs, abs_le]

/-- Witness for C3 at the non-uniform sequence [0,1,2,4], whose third
interval deviates from the median by 1 ms. -/
theorem C3_sfreq_median_rule_w :
    (∃ d ∈ diffs [0, 1, 2, 4],
        1 / 1000 < |d - median (diffs [0, 1, 2, 4])|) ∧
      sfreq ([0, 1, 2, 4] : List ℚ) = .uniformErr := by
  have h : ∃ d ∈ diffs ([0, 1, 2, 4] : List ℚ),
      1 / 1000 < |d - median (diffs ([0, 1, 2, 4] : List ℚ))| := by
    norm_num [diffs, median, sortQ, insertSorted, lt_abs]
  exact ⟨h, (C3_sfreq_median_rule.1 0 1 [2, 4]).2 h⟩

/-- C3 counterexample: for times [0, 1, 2.002] the code returns a
rate, not an error: each interval deviates from the median 1.001 by
exactly 1e-3 ms, which the strict comparison does not flag. -/
theorem C3_sfreq_boundary_counterexample :
    sfreq [0, 1, 1001 / 500] = .rate (1000000 / 1001) ∧
      sfreq [0, 1, 1001 / 500] ≠ .uniformErr := by
  have h1 : sfreq [0, 1, 1001 / 500] = .rate (1000000 / 1001) := by
    norm_num [sfreq, sfreqOfDiffs, diffs, median, sortQ, insertSorted,
      listMax, listMin, lt_abs, abs_le]
  refine ⟨h1, ?_⟩
  rw [h1]
  exact fun hc => SfreqResult.noConfusion hc

/-- C6 (amended): with fewer than 2 samples no sampling rate is
returned: a single sample raises a RuntimeError (in particular
times = [0]), while zero samples returns the None sentinel rather
than raising. -/
theorem C6_sfreq_few_samples :
    (∀ t : ℚ, sfreq [t] = .sampleErr) ∧ sfreq ([0] : List ℚ) = .sampleErr
      ∧ sfreq ([] : List ℚ) = .noData :=
  ⟨fun _ => rfl, rfl, rfl⟩

/-- C6 counterexample: an empty times sequence does not raise; sfreq
returns None (modelled as the noData sentinel), contradicting the
claim that every request with fewer than 2 samples raises. -/
theorem C6_sfreq_empty_counterexample :
    sfreq ([] : List ℚ) = .noData ∧ sfreq ([] : List ℚ) ≠ .sampleErr ∧
      sfreq ([] : List ℚ) ≠ .uniformErr := by
  refine ⟨rfl, ?_, ?_⟩ <;> simp [sfreq]

/-- C4: evaluating the constructor at a list of exactly three
coordinate triplets shows the wrap bug: the list is treated as a
single coordinate, giving n_contacts = 1 instead of 3; a single bare
triplet is wrapped to one contact as documented. -/
theorem C4_three_tuple_list_collapses :
    (init (.tup [.tup [.num 1, .num 2, .num 3],
          .tup [.num 4, .num 5, .num 6], .tup [.num 7, .num 8, .num 9]])
        (3 / 10) (some .psa) (1 / 2) [] []).map EArray.n_contacts = .ok 1
      ∧ (init (.tup [.num 1, .num 2, .num 3])
          (3 / 10) (some .psa) (1 / 2) [] []).map EArray.n_contacts
        = .ok 1 := by
  constructor
  · norm_num [init, wrapPositions, validPos, checkShapes, checkRows,
      EArray.n_contacts, Except.map]
  · norm_num [init, wrapPositions, validPos, checkShapes, checkRows,
      EArray.n_contacts, Except.map]

/-- C7: constructing from three electrode positions with matching
(2 trials x 3 contacts x 5 samples) voltages fails: the three
positions are wrapped into a single contact, after which the first
trial's 3 voltage rows no longer match the single stored contact and
the constructor raises the shape ValueError, so the claimed
round-trip is impossible at this shape. -/
theorem C7_three_contact_roundtrip_fails :
    init (.tup [.tup [.num 0, .num 0, .num 0],
        .tup [.num 0, .num 0, .num 1], .tup [.num 0, .num 0, .num 2]])
      (3 / 10) (some .psa) (1 / 2) [0, 1, 2, 3, 4]
      [[[0, 0, 0, 0, 0], [0, 0, 0, 0, 0], [0, 0, 0, 0, 0]],
        [[1, 1, 1, 1, 1], [1, 1, 1, 1, 1], [1, 1, 1, 1, 1]]]
      = .error (.shapeContacts 3 1 0) := by
  norm_num [init, wrapPositions, validPos, checkShapes, checkRows]

/-- C5 (amended): out-of-range int and list trial selections raise an
IndexError whose payload reports the number of stored trials; slice
selections follow Python clamping semantics and never raise an
IndexError. -/
theorem C5_getitem_out_of_range :
    (∀ (A : EArray) (i : Int), pyIndex A.data.length i = none →
        getitem A (.int i) = .error (.indexError A.data.length))
      ∧ (∀ (A : EArray) (l : List Int),
          (∃ j ∈ l, pyIndex A.data.length j = none) →
          getitem A (.list l) = .error (.indexError A.data.length)) := by
  constructor
  · intro A i h
    simp [getitem, selectTrials, h]
  · intro A l h
    simp [getitem, selectTrials, selectList_eq_none h]

/-- Witness for C5: selecting trial 5 of a one-trial array raises
with the trial count 1 in the message. -/
theorem C5_getitem_out_of_range_w :
    pyIndex Aex.data.length 5 = none ∧
      getitem Aex (.int 5) = .error (.indexError Aex.data.length) := by
  have h : pyIndex Aex.data.length 5 = none := by
    norm_num [pyIndex, Aex]
  exact ⟨h, C5_getitem_out_of_range.1 Aex 5 h⟩

/-- C5 counterexample: a fully out-of-range slice selection on a
one-trial array does not raise; Python slice clamping yields an
empty selection and a fresh array is returned. -/
theorem C5_getitem_slice_counterexample :
    exceptIsOk (getitem Aex (.slice (some 5) (some 10))) = true ∧
      getitem Aex (.slice (some 5) (some 10))
        ≠ .error (.indexError 1) := by
  have h : exceptIsOk (getitem Aex (.slice (some 5) (some 10))) = true := by
    norm_num [getitem, Aex, selectTrials, pySlice, sliceBound, init,
      wrapPositions, validPos, checkShapes, checkRows, exceptIsOk]
  refine ⟨h, fun hc => ?_⟩
  rw [hc] at h
  simp [exceptIsOk] at h

/-- C8: if the number of gathered currents at a step disagrees with
the column count of the built transfer-resistance matrix, the
recording callback aborts with a RuntimeError instead of appending
misaligned voltages. -/
theorem C8_callback_mismatch_aborts (S : Session) (currents : List ℚ)
    (h : currents.length ≠ S.n_segments) :
    calcPotentialsCallback S currents = .error .runtimeError := by
  simp [calcPotentialsCallback, h]

/-- Witness for C8: a two-column matrix fed three currents aborts. -/
theorem C8_callback_mismatch_aborts_w :
    ([(1 : ℚ), 2, 3]).length ≠ (Session.mk [[1, 1]] 2 []).n_segments ∧
      calcPotentialsCallback (Session.mk [[1, 1]] 2 []) [1, 2, 3]
        = .error .runtimeError := by
  have h : ([(1 : ℚ), 2, 3]).length ≠ (Session.mk [[1, 1]] 2 []).n_segments := by
    simp
  exact ⟨h, C8_callback_mismatch_aborts (Session.mk [[1, 1]] 2 []) [1, 2, 3] h⟩

/-- C10: trial selection rebuilds the array without passing
min_distance, so for any array produced by the constructor and every
in-range trial selection — an int, slice or list whose trial lookup
succeeds — the result carries the default min_distance 1/2 regardless
of the original, while positions, sigma, method and times are
propagated and exactly the selected trials' data is kept. -/
theorem C10_getitem_resets_min_distance
    (p : PyVal) (σ : ℚ) (m : Option Method) (md : ℚ) (ts : List ℚ)
    (vs : List (List (List ℚ))) (A : EArray) (s : Sel)
    (nd : List (List (List ℚ)))
    (hA : init p σ m md ts vs = .ok A)
    (hs : selectTrials A.data s = .ok nd) :
    getitem A s
      = .ok ⟨A.positions, A.sigma, A.method, 1 / 2, A.times, nd⟩ := by
  obtain ⟨ps0, rfl, hall, hσ, hmd, hcs, hAeq⟩ := init_ok_elim hA
  subst hAeq
  have hs2 : selectTrials vs s = .ok nd := hs
  have hinv := (checkShapes_none_iff
    (wrapPositions ps0).length ts.length vs 0).mp hcs
  have hmem := selectTrials_ok_mem hs2
  have hwrap : wrapPositions (wrapPositions ps0) = wrapPositions ps0 :=
    wrapPositions_of_ne_three (wrapPositions_length_ne_three ps0)
  have hcs2 : checkShapes (wrapPositions ps0).length ts.length nd 0
      = none := by
    rw [checkShapes_none_iff]
    intro t ht
    exact hinv t (hmem t ht)
  have hhalf : (0 : ℚ) < 1 / 2 := by norm_num
  have hinit2 : init (.tup (wrapPositions ps0)) σ m (1 / 2) ts nd
      = .ok ⟨wrapPositions ps0, σ, m, 1 / 2, ts, nd⟩ := by
    simp only [init]
    rw [hwrap, if_pos hall, if_pos hσ, if_pos hhalf, hcs2]
  simp only [getitem]
  rw [hs2]
  exact hinit2

/-- Witness for C10: a slice selection of the single trial of a
concrete array built with min_distance 7 yields an array with the
default min_distance 1/2. -/
theorem C10_getitem_resets_min_distance_w :
    init (.tup [.tup [.num 0, .num 0, .num 0]]) (3 / 10) (some .psa) 7
        [0, 1] [[[5, 6]]] = .ok Amd ∧
      selectTrials Amd.data (.slice (some 0) (some 1)) = .ok [[[5, 6]]] ∧
      getitem Amd (.slice (some 0) (some 1))
        = .ok ⟨Amd.positions, Amd.sigma, Amd.method, 1 / 2, Amd.times,
            [[[5, 6]]]⟩ := by
  have h1 : init (.tup [.tup [.num 0, .num 0, .num 0]]) (3 / 10)
      (some .psa) 7 [0, 1] [[[5, 6]]] = .ok Amd := by
    norm_num [init, wrapPositions, validPos, checkShapes, checkRows, Amd]
  have h2 : selectTrials Amd.data (.slice (some 0) (some 1))
      = .ok [[[5, 6]]] := by
    norm_num [selectTrials, pySlice, sliceBound, Amd]
  exact ⟨h1, h2,
    C10_getitem_resets_min_distance _ (3 / 10) (some .psa) 7 [0, 1]
      [[[5, 6]]] Amd (.slice (some 0) (some 1)) [[[5, 6]]] h1 h2⟩

end Extracellular
